import Mathlib

/-!
Shallow embedding of the retail e-commerce analytics cleaning pipeline
(`src/python/data_pipeline.py`, functions `clean_sales_fact`,
`clean_customer_clv`, `clean_rfm`) together with faithful models of the
pandas primitives they rely on: linear-interpolation quantiles
(`Series.quantile`), `pd.qcut` / `pd.cut` binning (`searchsorted` with
`right=True`, the `include_lowest` adjustment, `duplicates='drop'`
edge deduplication and the label-count check), `drop_duplicates`
(keep-first), `fillna`, `median`, `clip(upper=...)`,
`rank(method='first')` and Python's `str.strip` / `str.title`.
Numeric columns are modelled as rationals, nullable columns as `Option`,
tables as lists of rows, and operations that raise in pandas return `none`.
-/

namespace Pipeline

/-- Ascending sort, as pandas sorts values before quantile interpolation. -/
def pandasSort (l : List ℚ) : List ℚ := List.insertionSort (· ≤ ·) l

/-- Linear interpolation at fractional position `h` over the sorted list `s`
(numpy/pandas `interpolation='linear'`): with `i = ⌊h⌋`, the value is
`s[i] + (h - i) * (s[i+1] - s[i])`, the last point being its own successor. -/
def interpAt (s : List ℚ) (h : ℚ) : ℚ :=
  let i : ℕ := h.floor.toNat
  let a := s.getD i 0
  let b := s.getD (i + 1) a
  a + (h - (i : ℚ)) * (b - a)

/-- `Series.quantile(q)` with linear interpolation: position `q * (n - 1)`
in the sorted data. -/
def panQuantile (xs : List ℚ) (q : ℚ) : ℚ :=
  interpAt (pandasSort xs) (q * ((xs.length : ℚ) - 1))

/-- `Series.quantile` of an all-null (here: empty) column is missing. -/
def quantileOpt (xs : List ℚ) (q : ℚ) : Option ℚ :=
  if xs = [] then none else some (panQuantile xs q)

/-- `Series.median` over the present values: middle element of the sorted
data, or the mean of the two middle elements for even counts; missing when
no values are present. -/
def medianOpt (xs : List ℚ) : Option ℚ :=
  let s := pandasSort xs
  let n := s.length
  if n = 0 then none
  else if n % 2 = 1 then some (s.getD (n / 2) 0)
  else some ((s.getD (n / 2 - 1) 0 + s.getD (n / 2) 0) / 2)

/-- Drop consecutive duplicates of a (sorted) list. -/
def dedupC : List ℚ → List ℚ
  | [] => []
  | [a] => [a]
  | a :: b :: l => if a = b then dedupC (b :: l) else a :: dedupC (b :: l)

/-- `np.unique`: sorted distinct values. -/
def npUnique (l : List ℚ) : List ℚ := dedupC (pandasSort l)

/-- `np.searchsorted(edges, x, side='left')`: index of the first edge `≥ x`
(the length of `edges` when there is none). -/
def searchsortedLeft (edges : List ℚ) (x : ℚ) : ℕ :=
  edges.findIdx (fun e => decide (x ≤ e))

/-- Bin index assignment of `pd.cut` for `right=True`: `ids` is the
left-searchsorted position, forced to `1` for `x` equal to the lowest edge
when `include_lowest` is set; `ids = 0` and `ids = len(edges)` are
out-of-range (pandas yields NaN, modelled as `none`), otherwise the bin
(= label) index is `ids - 1`. -/
def cutBinIdx (edges : List ℚ) (includeLowest : Bool) (x : ℚ) : Option ℕ :=
  let i0 := searchsortedLeft edges x
  let i1 := if includeLowest = true ∧ x = edges.headD 0 then 1 else i0
  if i1 = 0 ∨ edges.length ≤ i1 then none else some (i1 - 1)

/-- The five quartile edges `pd.qcut(x, q=4)` computes:
quantiles at 0, 1/4, 1/2, 3/4, 1. -/
def quantEdges (xs : List ℚ) : List ℚ :=
  [panQuantile xs 0, panQuantile xs (1/4), panQuantile xs (1/2),
   panQuantile xs (3/4), panQuantile xs 1]

/-- Edge preparation of `pd.qcut(..., duplicates=...)` (`_bins_to_cuts`):
when the quartile edges contain duplicates (and there are more than two
edges), `duplicates='drop'` replaces them by their sorted distinct values
while `duplicates='raise'` raises. -/
def qcutBins (xs : List ℚ) (dupDrop : Bool) : Option (List ℚ) :=
  let edges := quantEdges xs
  let u := npUnique edges
  if (u.length < edges.length ∧ edges.length ≠ 2) then
    (if dupDrop then some u else none)
  else some edges

/-- Elementwise optional map over a list (`none` once any element fails). -/
def mapMO (f : α → Option β) : List α → Option (List β)
  | [] => some []
  | a :: l => (f a).bind fun b => (mapMO f l).map fun bs => b :: bs

/-- `pd.qcut(xs, q=4, labels=labels, duplicates=...)`: prepares quartile
edges, enforces pandas' check that the label list has exactly one entry
fewer than the surviving edges (`ValueError` — `none` — otherwise), then
assigns each value its bin's label. -/
def qcutWith (xs : List ℚ) (labels : List α) (dupDrop : Bool) : Option (List α) :=
  if xs.isEmpty then none
  else
    match qcutBins xs dupDrop with
    | none => none
    | some bins =>
      if labels.length + 1 = bins.length then
        mapMO (fun x => (cutBinIdx bins true x).bind fun i => labels.get? i) xs
      else none

/-- Worker for `drop_duplicates`: keep elements not seen before. -/
def dropDupGo [DecidableEq α] (seen : List α) : List α → List α
  | [] => []
  | a :: l => if a ∈ seen then dropDupGo seen l else a :: dropDupGo (a :: seen) l

/-- `DataFrame.drop_duplicates()`: keep the first occurrence of every
full-row value, preserving order. -/
def dropDup [DecidableEq α] (l : List α) : List α := dropDupGo [] l

/-- `Series.rank(method='first')`: 1-based rank in the stable ascending
order, ties broken by row position. -/
def rankFirst (xs : List ℚ) : List ℚ :=
  (List.range xs.length).map fun i =>
    (((1 + ((List.range xs.length).filter fun j =>
        decide (xs.getD j 0 < xs.getD i 0) ||
          (decide (xs.getD j 0 = xs.getD i 0) && decide (j < i))).length : ℕ)) : ℚ)

/-- `Series.clip(upper=cap)`: cap from above when the cap is present,
identity when the cap is missing (NaN). -/
def clipUpper : Option ℚ → ℚ → ℚ
  | none, x => x
  | some c, x => min x c

/-- Whitespace stripped by Python's `str.strip()` (ASCII portion). -/
def isPySpace (c : Char) : Bool :=
  c = ' ' || c = '\t' || c = '\n' || c = '\x0d' || c = '\x0b' || c = '\x0c'

/-- Python `str.strip()`: remove leading and trailing whitespace. -/
def pyStrip (s : List Char) : List Char :=
  ((s.dropWhile isPySpace).reverse.dropWhile isPySpace).reverse

/-- Worker for `str.title()`: the flag records whether the previous
character was a letter; letters following a letter are lowercased, letters
starting a word are uppercased. -/
def pyTitleGo : Bool → List Char → List Char
  | _, [] => []
  | prev, c :: cs =>
    (if c.isAlpha then (if prev then c.toLower else c.toUpper) else c)
      :: pyTitleGo c.isAlpha cs

/-- Python `str.title()`. -/
def pyTitle (s : List Char) : List Char := pyTitleGo false s

/-- Two-list pointwise zip. -/
def zip2With (f : α → β → γ) : List α → List β → List γ
  | a :: as, b :: bs => f a b :: zip2With f as bs
  | _, _ => []

/-- Four-list pointwise zip. -/
def zip4With (f : α → β → γ → δ → ε) :
    List α → List β → List γ → List δ → List ε
  | a :: as, b :: bs, c :: cs, d :: ds => f a b c d :: zip4With f as bs cs ds
  | _, _, _, _ => []

/-! ## Sales fact table (`clean_sales_fact`) -/

/-- A raw sales-fact row, restricted to the columns the cleaning rules
touch; `discount` and `shipping_days` are nullable. -/
structure SalesRow where
  order_id : ℕ
  customer_id : ℕ
  age : ℚ
  quantity : ℤ
  discount : Option ℚ
  shipping_days : Option ℚ
  revenue : ℚ
  profit_margin_pct : ℚ
  order_status : List Char
deriving DecidableEq

/-- A cleaned sales-fact row with the derived columns. -/
structure SalesOut where
  order_id : ℕ
  customer_id : ℕ
  age : ℚ
  quantity : ℤ
  discount : ℚ
  shipping_days : Option ℚ
  revenue : ℚ
  profit_margin_pct : ℚ
  order_status : List Char
  age_group : Option String
  is_returned : ℤ
deriving DecidableEq, Inhabited

/-- Bin edges of the `pd.cut` call for `age_group`. -/
def ageBins : List ℚ := [0, 25, 35, 45, 60, 100]

/-- Labels of the `pd.cut` call for `age_group`. -/
def ageLabels : List String := ["18-25", "26-35", "36-45", "46-60", "60+"]

/-- `pd.cut(age, bins=[0,25,35,45,60,100], labels=...)` with pandas
defaults (`right=True`, `include_lowest=False`). -/
def ageGroup (a : ℚ) : Option String :=
  (cutBinIdx ageBins false a).bind fun i => ageLabels.get? i

/-- Steps 3.2/3.3 of `clean_sales_fact`: drop full duplicates, then keep
rows with `revenue >= 0`, then rows with `quantity > 0`. -/
def filteredSales (df : List SalesRow) : List SalesRow :=
  ((dropDup df).filter fun r => decide (0 ≤ r.revenue)).filter
    fun r => decide (0 < r.quantity)

/-- The fill value for null `shipping_days`: the column median over the
rows remaining after deduplication and filtering (step 3.4). -/
def shippingMedian (df : List SalesRow) : Option ℚ :=
  medianOpt ((filteredSales df).filterMap fun r => r.shipping_days)

/-- The 99th-percentile cap for `profit_margin_pct`, computed over the
filtered rows before clipping (step 3.5). -/
def marginCap (df : List SalesRow) : Option ℚ :=
  quantileOpt ((filteredSales df).map fun r => r.profit_margin_pct) (99/100)

/-- Per-row transformation of steps 3.4-3.7: fill nulls, clip the margin,
normalize `order_status`, and add derived columns. -/
def salesTransform (med cap : Option ℚ) (r : SalesRow) : SalesOut :=
  let status := pyTitle (pyStrip r.order_status)
  { order_id := r.order_id
    customer_id := r.customer_id
    age := r.age
    quantity := r.quantity
    discount := r.discount.getD 0
    shipping_days :=
      match r.shipping_days with
      | some v => some v
      | none => med
    revenue := r.revenue
    profit_margin_pct := clipUpper cap r.profit_margin_pct
    order_status := status
    age_group := ageGroup r.age
    is_returned := if status = "Returned".data then 1 else 0 }

/-- `clean_sales_fact`: dedup, filter, then the per-row cleaning with the
median and cap computed over the filtered rows. -/
def clean_sales_fact (df : List SalesRow) : List SalesOut :=
  (filteredSales df).map (salesTransform (shippingMedian df) (marginCap df))

/-! ## Customer CLV table (`clean_customer_clv`) -/

/-- CLV tier labels, in the order passed to `pd.qcut`. -/
inductive Tier | Bronze | Silver | Gold | Platinum
deriving DecidableEq, Inhabited

/-- Numeric rank of a tier (Bronze < Silver < Gold < Platinum). -/
def tierRank : Tier → ℕ
  | Tier.Bronze => 0
  | Tier.Silver => 1
  | Tier.Gold => 2
  | Tier.Platinum => 3

/-- The label list of the CLV `pd.qcut` call. -/
def clvLabels : List Tier := [Tier.Bronze, Tier.Silver, Tier.Gold, Tier.Platinum]

/-- A raw customer-CLV row (nullable estimate and lifespan). -/
structure ClvRow where
  customer_id : ℕ
  clv_estimate : Option ℚ
  customer_lifespan_days : Option ℚ
deriving DecidableEq

/-- A cleaned customer-CLV row. -/
structure ClvOut where
  customer_id : ℕ
  clv_estimate : ℚ
  customer_lifespan_days : ℚ
  clv_tier : Tier
deriving DecidableEq, Inhabited

/-- Row constructor for the cleaned CLV table. -/
def mkClvOut (r : ClvRow) (t : Tier) : ClvOut :=
  { customer_id := r.customer_id
    clv_estimate := r.clv_estimate.getD 0
    customer_lifespan_days := r.customer_lifespan_days.getD 0
    clv_tier := t }

/-- `clean_customer_clv`: fill null estimate/lifespan with 0, then assign
`clv_tier = pd.qcut(clv_estimate, q=4, labels=[Bronze,...,Platinum],
duplicates='drop')`; `none` models the run aborting with `ValueError`. -/
def clean_customer_clv (df : List ClvRow) : Option (List ClvOut) :=
  match qcutWith (df.map fun r => r.clv_estimate.getD 0) clvLabels true with
  | none => none
  | some ts => some (zip2With mkClvOut df ts)

/-! ## RFM table (`clean_rfm`) -/

/-- A raw RFM row. -/
structure RfmRow where
  customer_id : ℕ
  recency_days : ℚ
  frequency : ℚ
  monetary : ℚ
deriving DecidableEq

/-- A scored RFM row. -/
structure RfmOut where
  customer_id : ℕ
  recency_days : ℚ
  frequency : ℚ
  monetary : ℚ
  R_score : ℤ
  F_score : ℤ
  M_score : ℤ
  RFM_score : ℤ
  rfm_segment : String
deriving DecidableEq, Inhabited

/-- Labels of the recency `pd.qcut` (inverted: lowest quartile scores 4). -/
def rfmRLabels : List ℤ := [4, 3, 2, 1]

/-- Labels of the frequency and monetary `pd.qcut` calls. -/
def rfmALabels : List ℤ := [1, 2, 3, 4]

/-- Fixed threshold mapping from composite RFM score to segment label. -/
def rfm_label (score : ℤ) : String :=
  if score ≥ 10 then "Champions"
  else if score ≥ 8 then "Loyal Customers"
  else if score ≥ 6 then "Potential Loyalists"
  else if score ≥ 4 then "At Risk"
  else "Lost Customers"

/-- Row constructor for the scored RFM table: composite score is the sum
of the three dimension scores, segment label from the threshold table. -/
def mkRfmOut (r : RfmRow) (a b c : ℤ) : RfmOut :=
  { customer_id := r.customer_id
    recency_days := r.recency_days
    frequency := r.frequency
    monetary := r.monetary
    R_score := a
    F_score := b
    M_score := c
    RFM_score := a + b + c
    rfm_segment := rfm_label (a + b + c) }

/-- `clean_rfm`: R from quartiles of `recency_days` with labels `[4,3,2,1]`
and `duplicates='drop'`; F from quartiles of `rank(method='first')` of
`frequency` with labels `[1,2,3,4]` (no duplicate dropping); M from
quartiles of `monetary` with labels `[1,2,3,4]` and `duplicates='drop'`;
then the composite score and segment label. `none` models `ValueError`. -/
def clean_rfm (df : List RfmRow) : Option (List RfmOut) :=
  match qcutWith (df.map fun r => r.recency_days) rfmRLabels true with
  | none => none
  | some rs =>
    match qcutWith (rankFirst (df.map fun r => r.frequency)) rfmALabels false with
    | none => none
    | some fs =>
      match qcutWith (df.map fun r => r.monetary) rfmALabels true with
      | none => none
      | some ms => some (zip4With mkRfmOut df rs fs ms)

/-! ## Helper lemmas -/

theorem findIdx_mono {α : Type _} {p q : α → Bool}
    (hpq : ∀ a, q a = true → p a = true) :
    ∀ l : List α, l.findIdx p ≤ l.findIdx q := by
  intro l
  induction l with
  | nil => simp
  | cons a l ih =>
    by_cases hq : q a = true
    · simp [List.findIdx_cons, hpq a hq, hq]
    · have hq' : q a = false := by simpa using hq
      by_cases hp : p a = true
      · simp [List.findIdx_cons, hp, hq']
      · have hp' : p a = false := by simpa using hp
        simp only [List.findIdx_cons, hp', hq', cond_false]
        omega

theorem searchsortedLeft_mono {x y : ℚ} (hxy : x ≤ y) (es : List ℚ) :
    searchsortedLeft es x ≤ searchsortedLeft es y := by
  unfold searchsortedLeft
  exact findIdx_mono (fun a ha => by
    simp only [decide_eq_true_eq] at ha ⊢
    exact hxy.trans ha) es

/-- Unpack a successful `cutBinIdx` application: the adjusted searchsorted
index is in range and one more than the bin index. -/
theorem cutBinIdx_some_unpack {es : List ℚ} {il : Bool} {x : ℚ} {i : ℕ}
    (hx : cutBinIdx es il x = some i) :
    (if il = true ∧ x = es.headD 0 then 1 else searchsortedLeft es x) ≠ 0 ∧
    (if il = true ∧ x = es.headD 0 then 1 else searchsortedLeft es x) < es.length ∧
    i = (if il = true ∧ x = es.headD 0 then 1 else searchsortedLeft es x) - 1 := by
  simp only [cutBinIdx] at hx
  by_cases hc : ((if il = true ∧ x = es.headD 0 then 1
      else searchsortedLeft es x) = 0 ∨
      es.length ≤ (if il = true ∧ x = es.headD 0 then 1
      else searchsortedLeft es x))
  · rw [if_pos hc] at hx
    exact absurd hx (by simp)
  · rw [if_neg hc] at hx
    push_neg at hc
    exact ⟨hc.1, by omega, (Option.some.inj hx).symm⟩

/-- Bin indices assigned by `pd.qcut` binning are monotone in the value. -/
theorem cutBinIdx_some_mono {es : List ℚ} {x y : ℚ} {i j : ℕ} (hxy : x ≤ y)
    (hx : cutBinIdx es true x = some i) (hy : cutBinIdx es true y = some j) :
    i ≤ j := by
  obtain ⟨hx0, hxlen, hxi⟩ := cutBinIdx_some_unpack hx
  obtain ⟨hy0, hylen, hyj⟩ := cutBinIdx_some_unpack hy
  by_cases hxh : x = es.headD 0
  · rw [if_pos ⟨rfl, hxh⟩] at hxi
    omega
  · rw [if_neg (fun hc => hxh hc.2)] at hxi hx0 hxlen
    by_cases hyh : y = es.headD 0
    · -- then x ≤ es.headD 0, so the very first edge satisfies the search
      -- predicate and searchsortedLeft es x = 0, contradicting hx0
      cases es with
      | nil => simp at hxlen
      | cons e t =>
        have hxe : x ≤ e := by
          have : y = e := by simpa using hyh
          exact hxy.trans_eq this
        have : searchsortedLeft (e :: t) x = 0 := by
          simp [searchsortedLeft, List.findIdx_cons, hxe]
        omega
    · rw [if_neg (fun hc => hyh hc.2)] at hyj
      have := searchsortedLeft_mono hxy es
      omega

/-- A value at most the first-quartile edge lands in the first bin. -/
theorem cutBinIdx_le_q1 {e0 e1 e2 e3 e4 x : ℚ} {i : ℕ}
    (hx : cutBinIdx [e0, e1, e2, e3, e4] true x = some i) (hle : x ≤ e1) :
    i = 0 := by
  obtain ⟨hx0, hxlen, hxi⟩ := cutBinIdx_some_unpack hx
  by_cases hxh : x = ([e0, e1, e2, e3, e4] : List ℚ).headD 0
  · rw [if_pos ⟨rfl, hxh⟩] at hxi
    omega
  · rw [if_neg (fun hc => hxh hc.2)] at hxi hx0
    have hs : searchsortedLeft [e0, e1, e2, e3, e4] x ≤ 1 := by
      have he1 : decide (x ≤ e1) = true := by simpa using hle
      by_cases he0 : decide (x ≤ e0) = true
      · simp [searchsortedLeft, List.findIdx_cons, he0]
      · have he0' : decide (x ≤ e0) = false := by simpa using he0
        simp [searchsortedLeft, List.findIdx_cons, he0', he1]
    omega

theorem mapMO_get? {α β : Type _} {f : α → Option β} :
    ∀ {xs : List α} {ys : List β}, mapMO f xs = some ys →
      ∀ i : ℕ, ys.get? i = (xs.get? i).bind f := by
  intro xs
  induction xs with
  | nil =>
    intro ys h i
    simp only [mapMO, Option.some.injEq] at h
    subst h
    simp
  | cons a l ih =>
    intro ys h i
    simp only [mapMO] at h
    cases hfa : f a with
    | none => rw [hfa] at h; simp at h
    | some b =>
      rw [hfa] at h
      cases hml : mapMO f l with
      | none => rw [hml] at h; simp at h
      | some t =>
        rw [hml] at h
        simp only [Option.some_bind, Option.map_some', Option.some.injEq] at h
        subst h
        cases i with
        | zero => simp [hfa]
        | succ n => simpa using ih hml n

theorem zip2With_get? {α β γ : Type _} {f : α → β → γ} :
    ∀ {as : List α} {bs : List β} {i : ℕ} {c : γ},
      (zip2With f as bs).get? i = some c →
      ∃ a b, as.get? i = some a ∧ bs.get? i = some b ∧ c = f a b := by
  intro as
  induction as with
  | nil =>
    intro bs i c h
    cases bs <;> simp [zip2With] at h
  | cons a as ih =>
    intro bs i c h
    cases bs with
    | nil => simp [zip2With] at h
    | cons b bs =>
      cases i with
      | zero =>
        simp only [zip2With, List.get?_cons_zero, Option.some.injEq] at h
        exact ⟨a, b, rfl, rfl, h.symm⟩
      | succ n =>
        simp only [zip2With, List.get?_cons_succ] at h ⊢
        exact ih h

theorem zip4With_get? {α β γ δ ε : Type _} {f : α → β → γ → δ → ε} :
    ∀ {as : List α} {bs : List β} {cs : List γ} {ds : List δ} {i : ℕ} {v : ε},
      (zip4With f as bs cs ds).get? i = some v →
      ∃ a b c d, as.get? i = some a ∧ bs.get? i = some b ∧
        cs.get? i = some c ∧ ds.get? i = some d ∧ v = f a b c d := by
  intro as
  induction as with
  | nil =>
    intro bs cs ds i v h
    cases bs <;> cases cs <;> cases ds <;> simp [zip4With] at h
  | cons a as ih =>
    intro bs cs ds i v h
    cases bs with
    | nil => cases cs <;> cases ds <;> simp [zip4With] at h
    | cons b bs =>
      cases cs with
      | nil => cases ds <;> simp [zip4With] at h
      | cons c cs =>
        cases ds with
        | nil => simp [zip4With] at h
        | cons d ds =>
          cases i with
          | zero =>
            simp only [zip4With, List.get?_cons_zero, Option.some.injEq] at h
            exact ⟨a, b, c, d, rfl, rfl, rfl, rfl, h.symm⟩
          | succ n =>
            simp only [zip4With, List.get?_cons_succ] at h ⊢
            exact ih h

theorem clvLabels_get {i : ℕ} {t : Tier} (h : clvLabels.get? i = some t) :
    tierRank t = i ∧ i < 4 := by
  match i with
  | 0 =>
    simp only [clvLabels, List.get?_cons_zero, Option.some.injEq] at h
    subst h; exact ⟨rfl, by omega⟩
  | 1 =>
    simp only [clvLabels, List.get?_cons_succ, List.get?_cons_zero,
      Option.some.injEq] at h
    subst h; exact ⟨rfl, by omega⟩
  | 2 =>
    simp only [clvLabels, List.get?_cons_succ, List.get?_cons_zero,
      Option.some.injEq] at h
    subst h; exact ⟨rfl, by omega⟩
  | 3 =>
    simp only [clvLabels, List.get?_cons_succ, List.get?_cons_zero,
      Option.some.injEq] at h
    subst h; exact ⟨rfl, by omega⟩
  | n + 4 =>
    simp [clvLabels, List.get?_cons_succ] at h

theorem rfmRLabels_get {i : ℕ} {a : ℤ} (h : rfmRLabels.get? i = some a) :
    a = 4 - (i : ℤ) ∧ i < 4 := by
  match i with
  | 0 | 1 | 2 | 3 =>
    simp only [rfmRLabels, List.get?_cons_succ, List.get?_cons_zero,
      Option.some.injEq] at h
    subst h; constructor <;> first | rfl | omega
  | n + 4 =>
    simp [rfmRLabels, List.get?_cons_succ] at h

theorem rfmALabels_get {i : ℕ} {a : ℤ} (h : rfmALabels.get? i = some a) :
    a = (i : ℤ) + 1 ∧ i < 4 := by
  match i with
  | 0 | 1 | 2 | 3 =>
    simp only [rfmALabels, List.get?_cons_succ, List.get?_cons_zero,
      Option.some.injEq] at h
    subst h; constructor <;> first | rfl | omega
  | n + 4 =>
    simp [rfmALabels, List.get?_cons_succ] at h

/-- A successful 4-label `qcut` call never dropped any quartile edge: the
bins are exactly the five quantile edges, and the result is the
elementwise bin labelling. -/
theorem qcutWith_some_eq {α : Type _} {xs : List ℚ} {labels : List α}
    {dup : Bool} {ys : List α}
    (h : qcutWith xs labels dup = some ys) (h4 : labels.length = 4) :
    mapMO (fun x => (cutBinIdx (quantEdges xs) true x).bind
      fun i => labels.get? i) xs = some ys := by
  unfold qcutWith at h
  split at h
  · exact absurd h (by simp)
  · split at h
    next => exact absurd h (by simp)
    next bins hbins =>
      split at h
      next hlen =>
        have hb5 : bins.length = 5 := by omega
        have hedges : bins = quantEdges xs := by
          simp only [qcutBins] at hbins
          by_cases h1 : ((npUnique (quantEdges xs)).length < (quantEdges xs).length ∧
              (quantEdges xs).length ≠ 2)
          · rw [if_pos h1] at hbins
            obtain ⟨h1a, h1b⟩ := h1
            cases dup with
            | false =>
              rw [if_neg (by simp)] at hbins
              exact absurd hbins (by simp)
            | true =>
              rw [if_pos rfl] at hbins
              have hbu := Option.some.inj hbins
              have h5 : (quantEdges xs).length = 5 := by simp [quantEdges]
              rw [← hbu] at hb5
              omega
          · rw [if_neg h1] at hbins
            exact (Option.some.inj hbins).symm
        rw [hedges] at h
        exact h
      next => exact absurd h (by simp)

/-- Casework for the fixed segment-label thresholds. -/
theorem rfm_label_spec (s : ℤ) :
    (10 ≤ s → rfm_label s = "Champions") ∧
    (8 ≤ s ∧ s ≤ 9 → rfm_label s = "Loyal Customers") ∧
    (6 ≤ s ∧ s ≤ 7 → rfm_label s = "Potential Loyalists") ∧
    (4 ≤ s ∧ s ≤ 5 → rfm_label s = "At Risk") ∧
    (s < 4 → rfm_label s = "Lost Customers") := by
  unfold rfm_label
  refine ⟨fun hs => ?_, fun hs => ?_, fun hs => ?_, fun hs => ?_, fun hs => ?_⟩ <;>
    split_ifs <;> first | rfl | omega

/-- Casework for the `age_group` binning: the actual intervals are
half-open, `(0,25], (25,35], (35,45], (45,60], (60,100]`, and values
outside `(0,100]` (age `0` included) get no label. -/
theorem ageGroup_spec (a : ℚ) :
    (0 < a ∧ a ≤ 25 → ageGroup a = some "18-25") ∧
    (25 < a ∧ a ≤ 35 → ageGroup a = some "26-35") ∧
    (35 < a ∧ a ≤ 45 → ageGroup a = some "36-45") ∧
    (45 < a ∧ a ≤ 60 → ageGroup a = some "46-60") ∧
    (60 < a ∧ a ≤ 100 → ageGroup a = some "60+") ∧
    (a ≤ 0 ∨ 100 < a → ageGroup a = none) := by
  refine ⟨?_, ?_, ?_, ?_, ?_, ?_⟩
  · rintro ⟨h1, h2⟩
    have e0 : decide (a ≤ (0 : ℚ)) = false := decide_eq_false (by linarith)
    have e1 : decide (a ≤ (25 : ℚ)) = true := decide_eq_true h2
    simp [ageGroup, cutBinIdx, searchsortedLeft, ageBins, ageLabels,
      List.findIdx_cons, e0, e1]
  · rintro ⟨h1, h2⟩
    have e0 : decide (a ≤ (0 : ℚ)) = false := decide_eq_false (by linarith)
    have e1 : decide (a ≤ (25 : ℚ)) = false := decide_eq_false (by linarith)
    have e2 : decide (a ≤ (35 : ℚ)) = true := decide_eq_true h2
    simp [ageGroup, cutBinIdx, searchsortedLeft, ageBins, ageLabels,
      List.findIdx_cons, e0, e1, e2]
  · rintro ⟨h1, h2⟩
    have e0 : decide (a ≤ (0 : ℚ)) = false := decide_eq_false (by linarith)
    have e1 : decide (a ≤ (25 : ℚ)) = false := decide_eq_false (by linarith)
    have e2 : decide (a ≤ (35 : ℚ)) = false := decide_eq_false (by linarith)
    have e3 : decide (a ≤ (45 : ℚ)) = true := decide_eq_true h2
    simp [ageGroup, cutBinIdx, searchsortedLeft, ageBins, ageLabels,
      List.findIdx_cons, e0, e1, e2, e3]
  · rintro ⟨h1, h2⟩
    have e0 : decide (a ≤ (0 : ℚ)) = false := decide_eq_false (by linarith)
    have e1 : decide (a ≤ (25 : ℚ)) = false := decide_eq_false (by linarith)
    have e2 : decide (a ≤ (35 : ℚ)) = false := decide_eq_false (by linarith)
    have e3 : decide (a ≤ (45 : ℚ)) = false := decide_eq_false (by linarith)
    have e4 : decide (a ≤ (60 : ℚ)) = true := decide_eq_true h2
    simp [ageGroup, cutBinIdx, searchsortedLeft, ageBins, ageLabels,
      List.findIdx_cons, e0, e1, e2, e3, e4]
  · rintro ⟨h1, h2⟩
    have e0 : decide (a ≤ (0 : ℚ)) = false := decide_eq_false (by linarith)
    have e1 : decide (a ≤ (25 : ℚ)) = false := decide_eq_false (by linarith)
    have e2 : decide (a ≤ (35 : ℚ)) = false := decide_eq_false (by linarith)
    have e3 : decide (a ≤ (45 : ℚ)) = false := decide_eq_false (by linarith)
    have e4 : decide (a ≤ (60 : ℚ)) = false := decide_eq_false (by linarith)
    have e5 : decide (a ≤ (100 : ℚ)) = true := decide_eq_true h2
    simp [ageGroup, cutBinIdx, searchsortedLeft, ageBins, ageLabels,
      List.findIdx_cons, e0, e1, e2, e3, e4, e5]
  · rintro (h | h)
    · have e0 : decide (a ≤ (0 : ℚ)) = true := decide_eq_true h
      simp [ageGroup, cutBinIdx, searchsortedLeft, ageBins, ageLabels,
        List.findIdx_cons, e0]
    · have e0 : decide (a ≤ (0 : ℚ)) = false := decide_eq_false (by linarith)
      have e1 : decide (a ≤ (25 : ℚ)) = false := decide_eq_false (by linarith)
      have e2 : decide (a ≤ (35 : ℚ)) = false := decide_eq_false (by linarith)
      have e3 : decide (a ≤ (45 : ℚ)) = false := decide_eq_false (by linarith)
      have e4 : decide (a ≤ (60 : ℚ)) = false := decide_eq_false (by linarith)
      have e5 : decide (a ≤ (100 : ℚ)) = false := decide_eq_false (by linarith)
      simp [ageGroup, cutBinIdx, searchsortedLeft, ageBins, ageLabels,
        List.findIdx_cons, e0, e1, e2, e3, e4, e5]

/-- A row of the cleaned sales fact is the transform of the aligned
filtered input row. -/
theorem clean_sales_get? {df : List SalesRow} {i : ℕ} {r : SalesRow}
    {r' : SalesOut}
    (h1 : (filteredSales df).get? i = some r)
    (h2 : (clean_sales_fact df).get? i = some r') :
    r' = salesTransform (shippingMedian df) (marginCap df) r := by
  unfold clean_sales_fact at h2
  rw [List.get?_map, h1] at h2
  simp only [Option.map_some', Option.some.injEq] at h2
  exact h2.symm

/-! ## Claims about `clean_sales_fact` -/

/-- C2: every row returned by `clean_sales_fact` has `revenue ≥ 0` and
`quantity > 0`; the output rows are exactly the deduplicated, filtered
input rows with `revenue` and `quantity` untouched (violating rows are
dropped, never corrected), and every deduplicated input row satisfying
the predicate is retained in the output. -/
theorem c2_sales_filter (df : List SalesRow) :
    (∀ r ∈ clean_sales_fact df, 0 ≤ r.revenue ∧ 0 < r.quantity) ∧
    ((clean_sales_fact df).map fun r => (r.revenue, r.quantity)) =
      ((filteredSales df).map fun r => (r.revenue, r.quantity)) ∧
    (∀ r ∈ dropDup df, 0 ≤ r.revenue → 0 < r.quantity →
      ∃ r' ∈ clean_sales_fact df,
        r'.order_id = r.order_id ∧ r'.revenue = r.revenue ∧
          r'.quantity = r.quantity) := by
  refine ⟨?_, ?_, ?_⟩
  · intro r hr
    unfold clean_sales_fact at hr
    rw [List.mem_map] at hr
    obtain ⟨s, hs, hrs⟩ := hr
    unfold filteredSales at hs
    rw [List.mem_filter] at hs
    obtain ⟨hs1, hq⟩ := hs
    rw [List.mem_filter] at hs1
    obtain ⟨_, hrev⟩ := hs1
    have hrev' : 0 ≤ s.revenue := of_decide_eq_true hrev
    have hq' : 0 < s.quantity := of_decide_eq_true hq
    subst hrs
    exact ⟨hrev', hq'⟩
  · unfold clean_sales_fact
    rw [List.map_map]
    rfl
  · intro r hr h0 hq
    have hf : r ∈ filteredSales df := by
      unfold filteredSales
      rw [List.mem_filter, List.mem_filter]
      exact ⟨⟨hr, decide_eq_true h0⟩, decide_eq_true hq⟩
    exact ⟨salesTransform (shippingMedian df) (marginCap df) r,
      List.mem_map_of_mem _ hf, rfl, rfl, rfl⟩

/-- C4 (counterexample): a row with age exactly 0 passes the filters but
gets no age group at all — not the label "18-25" the claim requires for
every age in [0,25] — because `pd.cut` leaves the lowest bin edge
excluded by default. -/
theorem c4_zero_age_counterexample :
    ((clean_sales_fact [⟨1, 1, 0, 1, some 0, some 2, 10, 5,
        "Completed".data⟩]).map fun r => r.age_group) = [none] := by
  decide

/-- C4 (amended): age groups on the cleaned sales fact follow the
half-open bins `(0,25], (25,35], (35,45], (45,60], (60,100]` labelled
"18-25", "26-35", "36-45", "46-60", "60+"; every age in `(0,25]` gets
"18-25", while age ≤ 0 (in particular age = 0) or age > 100 yields no
group. -/
theorem c4_age_group (df : List SalesRow) (i : ℕ) (r : SalesRow)
    (r' : SalesOut)
    (h1 : (filteredSales df).get? i = some r)
    (h2 : (clean_sales_fact df).get? i = some r') :
    (0 < r.age ∧ r.age ≤ 25 → r'.age_group = some "18-25") ∧
    (25 < r.age ∧ r.age ≤ 35 → r'.age_group = some "26-35") ∧
    (35 < r.age ∧ r.age ≤ 45 → r'.age_group = some "36-45") ∧
    (45 < r.age ∧ r.age ≤ 60 → r'.age_group = some "46-60") ∧
    (60 < r.age ∧ r.age ≤ 100 → r'.age_group = some "60+") ∧
    (r.age ≤ 0 ∨ 100 < r.age → r'.age_group = none) := by
  have he := clean_sales_get? h1 h2
  subst he
  have hg : (salesTransform (shippingMedian df) (marginCap df) r).age_group =
      ageGroup r.age := rfl
  rw [hg]
  exact ageGroup_spec r.age

/-- C5: on every cleaned sales-fact row the profit margin is at most the
99th-percentile value computed over the filtered set before clipping, and
at most the row's original (pre-clip) margin — values are never
inflated. -/
theorem c5_margin_capped (df : List SalesRow) (i : ℕ) (r : SalesRow)
    (r' : SalesOut)
    (h1 : (filteredSales df).get? i = some r)
    (h2 : (clean_sales_fact df).get? i = some r') :
    r'.profit_margin_pct ≤
      panQuantile ((filteredSales df).map fun s => s.profit_margin_pct)
        (99/100) ∧
    r'.profit_margin_pct ≤ r.profit_margin_pct := by
  have he := clean_sales_get? h1 h2
  subst he
  have hne : ((filteredSales df).map fun s => s.profit_margin_pct) ≠ [] := by
    intro hnil
    rw [List.map_eq_nil] at hnil
    rw [hnil] at h1
    simp at h1
  have hcap : marginCap df =
      some (panQuantile ((filteredSales df).map fun s => s.profit_margin_pct)
        (99/100)) := by
    unfold marginCap quantileOpt
    rw [if_neg hne]
  have hm : (salesTransform (shippingMedian df) (marginCap df) r).profit_margin_pct =
      clipUpper (marginCap df) r.profit_margin_pct := rfl
  rw [hm, hcap]
  exact ⟨min_le_right _ _, min_le_left _ _⟩

/-- C8: on the cleaned sales fact a null discount becomes 0 (non-null
discounts are kept), and a null shipping_days becomes the median of
shipping_days over the rows remaining after deduplication and the
revenue/quantity filter (filter-before-fill ordering); non-null
shipping_days are kept. -/
theorem c8_null_fill (df : List SalesRow) (i : ℕ) (r : SalesRow)
    (r' : SalesOut)
    (h1 : (filteredSales df).get? i = some r)
    (h2 : (clean_sales_fact df).get? i = some r') :
    r'.discount = r.discount.getD 0 ∧
    r'.shipping_days =
      (match r.shipping_days with
        | some v => some v
        | none =>
          medianOpt ((filteredSales df).filterMap fun s => s.shipping_days)) := by
  have he := clean_sales_get? h1 h2
  subst he
  exact ⟨rfl, rfl⟩

/-- C9: `is_returned` on the cleaned sales fact is 0 or 1, and is 1
exactly when the row's raw `order_status`, whitespace-stripped and
title-cased, equals "Returned"; in particular the raw statuses
"RETURNED" and " returned " normalize to "Returned" while "Completed"
does not. -/
theorem c9_is_returned :
    (∀ (df : List SalesRow) (i : ℕ) (r : SalesRow) (r' : SalesOut),
      (filteredSales df).get? i = some r →
      (clean_sales_fact df).get? i = some r' →
      (r'.is_returned = 0 ∨ r'.is_returned = 1) ∧
      (r'.is_returned = 1 ↔ pyTitle (pyStrip r.order_status) = "Returned".data)) ∧
    pyTitle (pyStrip "RETURNED".data) = "Returned".data ∧
    pyTitle (pyStrip " returned ".data) = "Returned".data ∧
    pyTitle (pyStrip "Completed".data) ≠ "Returned".data := by
  refine ⟨?_, by decide, by decide, by decide⟩
  intro df i r r' h1 h2
  have he := clean_sales_get? h1 h2
  subst he
  have hval : (salesTransform (shippingMedian df) (marginCap df) r).is_returned =
      (if pyTitle (pyStrip r.order_status) = "Returned".data then (1 : ℤ)
        else 0) := rfl
  rw [hval]
  by_cases hc : pyTitle (pyStrip r.order_status) = "Returned".data
  · simp [hc]
  · simp [hc]

/-! ## Claims about `clean_customer_clv` and `clean_rfm` -/

/-- C1: contrary to the claim, degenerate quantile distributions do not
degrade to fewer bins — `pd.qcut` with an explicit 4-entry label list and
`duplicates='drop'` raises (`ValueError: Bin labels must be one fewer
than the number of bin edges`, modelled `none`) as soon as any duplicate
quartile edge is dropped: here for an all-equal `clv_estimate` column in
`clean_customer_clv` and an all-equal `recency_days` column in
`clean_rfm`. -/
theorem c1_degenerate_quantiles_fail :
    clean_customer_clv
      [⟨1, some 5, some 0⟩, ⟨2, some 5, some 0⟩, ⟨3, some 5, some 0⟩] = none ∧
    clean_rfm [⟨1, 7, 1, 10⟩, ⟨2, 7, 2, 20⟩, ⟨3, 7, 3, 30⟩] = none := by
  exact ⟨by with_unfolding_all rfl, by with_unfolding_all rfl⟩

/-- C6: CLV tier assignment by `clean_customer_clv` is monotone: whenever
one customer's (filled) CLV estimate exceeds another's, the first
customer's tier rank (Bronze < Silver < Gold < Platinum) is at least the
second's. -/
theorem c6_clv_tier_monotone (df : List ClvRow) (out : List ClvOut)
    (h : clean_customer_clv df = some out) (i j : ℕ) (a b : ClvOut)
    (ha : out.get? i = some a) (hb : out.get? j = some b)
    (hgt : b.clv_estimate < a.clv_estimate) :
    tierRank b.clv_tier ≤ tierRank a.clv_tier := by
  unfold clean_customer_clv at h
  cases hq : qcutWith (df.map fun r => r.clv_estimate.getD 0) clvLabels true with
  | none => rw [hq] at h; exact absurd h (by simp)
  | some ts =>
    rw [hq] at h
    have hout : out = zip2With mkClvOut df ts := (Option.some.inj h).symm
    subst hout
    obtain ⟨ra, ta, hra, hta, haeq⟩ := zip2With_get? ha
    obtain ⟨rb, tb, hrb, htb, hbeq⟩ := zip2With_get? hb
    subst haeq
    subst hbeq
    simp only [mkClvOut] at hgt ⊢
    have hts := qcutWith_some_eq hq (by rfl)
    have hga := mapMO_get? hts i
    have hgb := mapMO_get? hts j
    rw [hta, List.get?_map, hra] at hga
    rw [htb, List.get?_map, hrb] at hgb
    simp only [Option.map_some', Option.some_bind] at hga hgb
    obtain ⟨bi, hbi, hla⟩ := Option.bind_eq_some.mp hga.symm
    obtain ⟨bj, hbj, hlb⟩ := Option.bind_eq_some.mp hgb.symm
    obtain ⟨hrank_a, _⟩ := clvLabels_get hla
    obtain ⟨hrank_b, _⟩ := clvLabels_get hlb
    have hmono : bj ≤ bi := cutBinIdx_some_mono (le_of_lt hgt) hbj hbi
    omega

/-- C3: on every row produced by `clean_rfm`, the composite RFM score is
the sum of the three 1-4 dimension scores and lies in [3,12], and the
segment label follows the fixed thresholds exactly (≥10 Champions, 8-9
Loyal Customers, 6-7 Potential Loyalists, 4-5 At Risk, <4 Lost
Customers). -/
theorem c3_rfm_scores (df : List RfmRow) (out : List RfmOut)
    (h : clean_rfm df = some out) (r : RfmOut) (hr : r ∈ out) :
    r.RFM_score = r.R_score + r.F_score + r.M_score ∧
    3 ≤ r.RFM_score ∧ r.RFM_score ≤ 12 ∧
    (10 ≤ r.RFM_score → r.rfm_segment = "Champions") ∧
    (8 ≤ r.RFM_score ∧ r.RFM_score ≤ 9 → r.rfm_segment = "Loyal Customers") ∧
    (6 ≤ r.RFM_score ∧ r.RFM_score ≤ 7 →
      r.rfm_segment = "Potential Loyalists") ∧
    (4 ≤ r.RFM_score ∧ r.RFM_score ≤ 5 → r.rfm_segment = "At Risk") ∧
    (r.RFM_score < 4 → r.rfm_segment = "Lost Customers") := by
  unfold clean_rfm at h
  cases hrq : qcutWith (df.map fun s => s.recency_days) rfmRLabels true with
  | none => rw [hrq] at h; exact absurd h (by simp)
  | some rs =>
    rw [hrq] at h
    cases hfq : qcutWith (rankFirst (df.map fun s => s.frequency))
        rfmALabels false with
    | none => rw [hfq] at h; exact absurd h (by simp)
    | some fs =>
      rw [hfq] at h
      cases hmq : qcutWith (df.map fun s => s.monetary) rfmALabels true with
      | none => rw [hmq] at h; exact absurd h (by simp)
      | some ms =>
        rw [hmq] at h
        have hout : out = zip4With mkRfmOut df rs fs ms := (Option.some.inj h).symm
        subst hout
        rw [List.mem_iff_get?] at hr
        obtain ⟨i, hi⟩ := hr
        obtain ⟨ra, Ra, Fa, Ma, hdfa, hrsa, hfsa, hmsa, haeq⟩ := zip4With_get? hi
        subst haeq
        -- R score comes from the [4,3,2,1] labels
        have hga := mapMO_get? (qcutWith_some_eq hrq (by rfl)) i
        rw [hrsa] at hga
        obtain ⟨xa, _, hfa⟩ := Option.bind_eq_some.mp hga.symm
        obtain ⟨ki, _, hki⟩ := Option.bind_eq_some.mp hfa
        obtain ⟨hRv, hRlt⟩ := rfmRLabels_get hki
        -- F score comes from the [1,2,3,4] labels
        have hgf := mapMO_get? (qcutWith_some_eq hfq (by rfl)) i
        rw [hfsa] at hgf
        obtain ⟨xf, _, hff⟩ := Option.bind_eq_some.mp hgf.symm
        obtain ⟨kf, _, hkf⟩ := Option.bind_eq_some.mp hff
        obtain ⟨hFv, hFlt⟩ := rfmALabels_get hkf
        -- M score comes from the [1,2,3,4] labels
        have hgm := mapMO_get? (qcutWith_some_eq hmq (by rfl)) i
        rw [hmsa] at hgm
        obtain ⟨xm, _, hfm⟩ := Option.bind_eq_some.mp hgm.symm
        obtain ⟨km, _, hkm⟩ := Option.bind_eq_some.mp hfm
        obtain ⟨hMv, hMlt⟩ := rfmALabels_get hkm
        have hspec := rfm_label_spec (Ra + Fa + Ma)
        refine ⟨rfl, ?_, ?_, hspec.1, hspec.2.1, hspec.2.2.1, hspec.2.2.2.1,
          hspec.2.2.2.2⟩
        · show 3 ≤ Ra + Fa + Ma
          omega
        · show Ra + Fa + Ma ≤ 12
          omega

/-- C7: recency scoring by `clean_rfm` is inverted and anti-monotone:
lower `recency_days` never yields a lower `R_score`, and any customer
whose recency is at most the first-quartile edge of the recency
distribution receives the top score 4. -/
theorem c7_recency_inverted (df : List RfmRow) (out : List RfmOut)
    (h : clean_rfm df = some out) :
    (∀ i j a b, out.get? i = some a → out.get? j = some b →
      a.recency_days < b.recency_days → b.R_score ≤ a.R_score) ∧
    (∀ i a, out.get? i = some a →
      a.recency_days ≤ panQuantile (df.map fun r => r.recency_days) (1/4) →
      a.R_score = 4) := by
  unfold clean_rfm at h
  cases hrq : qcutWith (df.map fun s => s.recency_days) rfmRLabels true with
  | none => rw [hrq] at h; exact absurd h (by simp)
  | some rs =>
    rw [hrq] at h
    cases hfq : qcutWith (rankFirst (df.map fun s => s.frequency))
        rfmALabels false with
    | none => rw [hfq] at h; exact absurd h (by simp)
    | some fs =>
      rw [hfq] at h
      cases hmq : qcutWith (df.map fun s => s.monetary) rfmALabels true with
      | none => rw [hmq] at h; exact absurd h (by simp)
      | some ms =>
        rw [hmq] at h
        have hout : out = zip4With mkRfmOut df rs fs ms := (Option.some.inj h).symm
        subst hout
        have hrs := qcutWith_some_eq hrq (by rfl)
        constructor
        · intro i j a b ha hb hab
          obtain ⟨ra, Ra, Fa, Ma, hdfa, hrsa, _, _, haeq⟩ := zip4With_get? ha
          obtain ⟨rb, Rb, Fb, Mb, hdfb, hrsb, _, _, hbeq⟩ := zip4With_get? hb
          subst haeq
          subst hbeq
          simp only [mkRfmOut] at hab ⊢
          have hga := mapMO_get? hrs i
          rw [hrsa, List.get?_map, hdfa] at hga
          simp only [Option.map_some', Option.some_bind] at hga
          obtain ⟨bi, hbi, hla⟩ := Option.bind_eq_some.mp hga.symm
          have hgb := mapMO_get? hrs j
          rw [hrsb, List.get?_map, hdfb] at hgb
          simp only [Option.map_some', Option.some_bind] at hgb
          obtain ⟨bj, hbj, hlb⟩ := Option.bind_eq_some.mp hgb.symm
          obtain ⟨hva, hia⟩ := rfmRLabels_get hla
          obtain ⟨hvb, hib⟩ := rfmRLabels_get hlb
          have hm : bi ≤ bj := cutBinIdx_some_mono (le_of_lt hab) hbi hbj
          omega
        · intro i a ha hle
          obtain ⟨ra, Ra, Fa, Ma, hdfa, hrsa, _, _, haeq⟩ := zip4With_get? ha
          subst haeq
          simp only [mkRfmOut] at hle ⊢
          have hga := mapMO_get? hrs i
          rw [hrsa, List.get?_map, hdfa] at hga
          simp only [Option.map_some', Option.some_bind] at hga
          obtain ⟨bi, hbi, hla⟩ := Option.bind_eq_some.mp hga.symm
          unfold quantEdges at hbi
          have hb0 : bi = 0 := cutBinIdx_le_q1 hbi hle
          obtain ⟨hva, hia⟩ := rfmRLabels_get hla
          omega

/-- C10: `F_score` is computed from a rank-first transform of frequency,
so ties are split by row position — on the sample table two customers
share frequency 5 yet receive F scores 1 and 2 — whereas `M_score` is a
direct function of the monetary value, so two customers with identical
monetary always receive identical M scores. -/
theorem c10_fscore_rank_first :
    ((clean_rfm [⟨1, 10, 5, 100⟩, ⟨2, 20, 5, 200⟩, ⟨3, 30, 7, 300⟩,
        ⟨4, 40, 7, 400⟩]).map fun out =>
      out.map fun r => (r.frequency, r.F_score)) =
      some [(5, 1), (5, 2), (7, 3), (7, 4)] ∧
    (∀ (df : List RfmRow) (out : List RfmOut), clean_rfm df = some out →
      ∀ i j a b, out.get? i = some a → out.get? j = some b →
        a.monetary = b.monetary → a.M_score = b.M_score) := by
  constructor
  · with_unfolding_all rfl
  · intro df out h i j a b ha hb hmon
    unfold clean_rfm at h
    cases hrq : qcutWith (df.map fun s => s.recency_days) rfmRLabels true with
    | none => rw [hrq] at h; exact absurd h (by simp)
    | some rs =>
      rw [hrq] at h
      cases hfq : qcutWith (rankFirst (df.map fun s => s.frequency))
          rfmALabels false with
      | none => rw [hfq] at h; exact absurd h (by simp)
      | some fs =>
        rw [hfq] at h
        cases hmq : qcutWith (df.map fun s => s.monetary) rfmALabels true with
        | none => rw [hmq] at h; exact absurd h (by simp)
        | some ms =>
          rw [hmq] at h
          have hout : out = zip4With mkRfmOut df rs fs ms :=
            (Option.some.inj h).symm
          subst hout
          have hms := qcutWith_some_eq hmq (by rfl)
          obtain ⟨ra, Ra, Fa, Ma, hdfa, _, _, hmsa, haeq⟩ := zip4With_get? ha
          obtain ⟨rb, Rb, Fb, Mb, hdfb, _, _, hmsb, hbeq⟩ := zip4With_get? hb
          subst haeq
          subst hbeq
          simp only [mkRfmOut] at hmon ⊢
          have hga := mapMO_get? hms i
          rw [hmsa, List.get?_map, hdfa] at hga
          simp only [Option.map_some', Option.some_bind] at hga
          have hgb := mapMO_get? hms j
          rw [hmsb, List.get?_map, hdfb] at hgb
          simp only [Option.map_some', Option.some_bind] at hgb
          rw [hmon] at hga
          exact Option.some.inj (hga.trans hgb.symm)

/-! ## Concrete witness data -/

/-- Sample raw sales rows: a kept row, a kept row with null discount and
shipping days, a row dropped for non-positive quantity, a row dropped for
negative revenue, and a duplicate of the first row. -/
def rW1 : SalesRow := ⟨1, 1, 30, 2, some (1/10), some 3, 100, 20, " returned ".data⟩

/-- Second sample row (null discount and shipping_days, raw status
"RETURNED"). -/
def rW2 : SalesRow := ⟨2, 2, 28, 1, none, none, 50, 5, "RETURNED".data⟩

/-- Sample sales-fact table exercising deduplication and both filters. -/
def dfW : List SalesRow :=
  [rW1, rW2, ⟨3, 3, 40, -1, some 0, some 2, 10, 30, "Completed".data⟩,
   ⟨4, 4, 70, 1, some 0, some 7, -5, 10, "Completed".data⟩, rW1]

/-- First cleaned sample row. -/
def outW0 : SalesOut := (clean_sales_fact dfW).getD 0 default

/-- Second cleaned sample row. -/
def outW1 : SalesOut := (clean_sales_fact dfW).getD 1 default

/-- Sample CLV table with four distinct estimates. -/
def dfClvW : List ClvRow :=
  [⟨1, some 10, some 5⟩, ⟨2, some 20, none⟩, ⟨3, some 30, some 9⟩,
   ⟨4, some 40, some 2⟩]

/-- Cleaned sample CLV table. -/
def outClvW : List ClvOut := (clean_customer_clv dfClvW).getD []

/-- Sample RFM table (two tied frequency pairs, distinct recency and
monetary). -/
def rfmSample : List RfmRow :=
  [⟨1, 10, 5, 100⟩, ⟨2, 20, 5, 200⟩, ⟨3, 30, 7, 300⟩, ⟨4, 40, 7, 400⟩]

/-- Scored sample RFM table. -/
def outRfmSample : List RfmOut := (clean_rfm rfmSample).getD []

/-- Sample RFM table whose last two customers share the monetary value 70
while the quartile edges stay distinct. -/
def rfmTie : List RfmRow :=
  [⟨1, 10, 1, 10⟩, ⟨2, 20, 2, 20⟩, ⟨3, 30, 3, 30⟩, ⟨4, 40, 4, 40⟩,
   ⟨5, 50, 5, 50⟩, ⟨6, 60, 6, 60⟩, ⟨7, 70, 7, 70⟩, ⟨8, 80, 8, 70⟩]

/-- Scored tied-monetary RFM table. -/
def outRfmTie : List RfmOut := (clean_rfm rfmTie).getD []

/-! ## Witnesses -/

/-- C2 witness: the first cleaned sample row indeed has nonnegative
revenue and positive quantity. -/
theorem c2_witness : 0 ≤ outW0.revenue ∧ 0 < outW0.quantity :=
  (c2_sales_filter dfW).1 outW0
    (of_decide_eq_true (by with_unfolding_all rfl))

/-- C4 witness: the first cleaned sample row (age 30) is labelled
"26-35". -/
theorem c4_witness : outW0.age_group = some "26-35" :=
  (c4_age_group dfW 0 rW1 outW0 (by with_unfolding_all rfl)
    (by with_unfolding_all rfl)).2.1
    (of_decide_eq_true (by with_unfolding_all rfl))

/-- C5 witness: the first cleaned sample row's margin is bounded by the
pre-clip 99th percentile and by its own raw margin. -/
theorem c5_witness :
    outW0.profit_margin_pct ≤
      panQuantile ((filteredSales dfW).map fun s => s.profit_margin_pct)
        (99/100) ∧
    outW0.profit_margin_pct ≤ rW1.profit_margin_pct :=
  c5_margin_capped dfW 0 rW1 outW0 (by with_unfolding_all rfl)
    (by with_unfolding_all rfl)

/-- C8 witness: the second cleaned sample row has its null discount
filled with 0 and its null shipping_days filled with the filtered-set
median. -/
theorem c8_witness :
    outW1.discount = rW2.discount.getD 0 ∧
    outW1.shipping_days =
      (match rW2.shipping_days with
        | some v => some v
        | none =>
          medianOpt ((filteredSales dfW).filterMap fun s => s.shipping_days)) :=
  c8_null_fill dfW 1 rW2 outW1 (by with_unfolding_all rfl)
    (by with_unfolding_all rfl)

/-- C9 witness: the second cleaned sample row (raw status "RETURNED") has
a 0/1 `is_returned` flag matching the normalized comparison. -/
theorem c9_witness :
    (outW1.is_returned = 0 ∨ outW1.is_returned = 1) ∧
    (outW1.is_returned = 1 ↔
      pyTitle (pyStrip rW2.order_status) = "Returned".data) :=
  c9_is_returned.1 dfW 1 rW2 outW1 (by with_unfolding_all rfl)
    (by with_unfolding_all rfl)

/-- C3 witness: the fourth scored sample customer has composite score
1 + 4 + 4 = 9 within [3,12] and lands exactly on the 8-9 boundary segment
"Loyal Customers". -/
theorem c3_witness :
    (outRfmSample.getD 3 default).RFM_score =
      (outRfmSample.getD 3 default).R_score +
        (outRfmSample.getD 3 default).F_score +
        (outRfmSample.getD 3 default).M_score ∧
    3 ≤ (outRfmSample.getD 3 default).RFM_score ∧
    (outRfmSample.getD 3 default).RFM_score ≤ 12 ∧
    (outRfmSample.getD 3 default).rfm_segment = "Loyal Customers" := by
  have h := c3_rfm_scores rfmSample outRfmSample (by with_unfolding_all rfl)
    (outRfmSample.getD 3 default)
    (of_decide_eq_true (by with_unfolding_all rfl))
  exact ⟨h.1, h.2.1, h.2.2.1,
    h.2.2.2.2.1 (of_decide_eq_true (by with_unfolding_all rfl))⟩

/-- C6 witness: in the sample CLV table the customer with estimate 10 has
a tier rank at most that of the customer with estimate 40. -/
theorem c6_witness :
    tierRank (outClvW.getD 0 default).clv_tier ≤
      tierRank (outClvW.getD 3 default).clv_tier :=
  c6_clv_tier_monotone dfClvW outClvW (by with_unfolding_all rfl) 3 0
    (outClvW.getD 3 default) (outClvW.getD 0 default)
    (by with_unfolding_all rfl) (by with_unfolding_all rfl)
    (of_decide_eq_true (by with_unfolding_all rfl))

/-- C7 witness: in the scored sample RFM table the customer with the
lowest recency (10 ≤ first-quartile edge 17.5) scores R = 4. -/
theorem c7_witness : (outRfmSample.getD 0 default).R_score = 4 :=
  (c7_recency_inverted rfmSample outRfmSample
    (by with_unfolding_all rfl)).2 0 (outRfmSample.getD 0 default)
    (by with_unfolding_all rfl)
    (of_decide_eq_true (by with_unfolding_all rfl))

/-- C10 witness: the two tied-monetary customers of the 8-row sample
receive identical M scores. -/
theorem c10_witness :
    (outRfmTie.getD 6 default).M_score = (outRfmTie.getD 7 default).M_score :=
  c10_fscore_rank_first.2 rfmTie outRfmTie (by with_unfolding_all rfl) 6 7
    (outRfmTie.getD 6 default) (outRfmTie.getD 7 default)
    (by with_unfolding_all rfl) (by with_unfolding_all rfl)
    (by with_unfolding_all rfl)

end Pipeline
